import Mathlib

/-!
Shallow embedding of the `async-transaction-engine` repository's core data
model and operations (src/src/types/monetary.rs, src/src/models/account.rs,
src/src/storage/account_storage.rs), together with theorems checking the
natural-language specification's claims against the code.

Conventions of the embedding:
* Rust `i64` values are Lean `Int`s kept inside `[I64.MIN, I64.MAX]`;
  checked operations test that range explicitly, mirroring
  `i64::checked_add` / `checked_sub` / `checked_mul` on in-range operands.
* Rust `&mut self` methods returning `Result<(), E>` become functions
  `State → State × Option E`: the returned state is whatever the Rust
  `self` holds when the method returns, so partial mutations on early
  `?`-returns are modelled faithfully.
* `HashMap` / `DashMap` become association lists with unique keys
  (`insertA` replaces, `eraseKey` deletes); iteration order is irrelevant
  to every claim.
* Rust strings are `List Char` (the inputs of interest are ASCII);
  `trim` models trimming of ASCII whitespace.
-/

namespace ATE

/-- Rust `i64::MIN` = -2^63. -/
def I64.MIN : Int := -(2 ^ 63)

/-- Rust `i64::MAX` = 2^63 - 1. -/
def I64.MAX : Int := 2 ^ 63 - 1

/-- Fixed-point scale from monetary.rs: `SCALE = 10^4`. -/
def SCALE : Int := 10000

/-- The monetary type: `pub struct Monetary(i64)` — an i64 count of
ten-thousandths, embedded as an `Int` kept in i64 range. -/
abbrev Monetary := Int

/-- Rust `Monetary::new`: zero. -/
def Monetary.new : Monetary := 0

/-- Rust `Monetary::is_negative`: `self.0 < 0`. -/
def Monetary.is_negative (m : Monetary) : Bool := m < 0

/-- Rust `i64::checked_add` on in-range operands: the exact sum if it fits in
i64, else `none`. -/
def Monetary.checked_add (a b : Monetary) : Option Monetary :=
  if I64.MIN ≤ a + b ∧ a + b ≤ I64.MAX then some (a + b) else none

/-- Rust `i64::checked_sub` on in-range operands. -/
def Monetary.checked_sub (a b : Monetary) : Option Monetary :=
  if I64.MIN ≤ a - b ∧ a - b ≤ I64.MAX then some (a - b) else none

/-- Rust `i64::checked_mul` on in-range operands. -/
def Monetary.checked_mul (a b : Monetary) : Option Monetary :=
  if I64.MIN ≤ a * b ∧ a * b ≤ I64.MAX then some (a * b) else none

/-- Rust `impl AddAssign for Monetary`: on overflow the value is left
unchanged (the Rust code only logs an error in that branch). -/
def Monetary.add_assign (a b : Monetary) : Monetary :=
  match Monetary.checked_add a b with
  | some v => v
  | none => a

/-- Rust `impl SubAssign for Monetary`: on overflow the value is left
unchanged. -/
def Monetary.sub_assign (a b : Monetary) : Monetary :=
  match Monetary.checked_sub a b with
  | some v => v
  | none => a

/- ### Association-list maps (embedding of HashMap / DashMap) -/

/-- Rust `HashMap::get` (copied): first binding of the key, if any. -/
def lookupA {α : Type} : List (Nat × α) → Nat → Option α
  | [], _ => none
  | (k, v) :: rest, j => if j = k then some v else lookupA rest j

/-- Remove every binding of a key. -/
def eraseKey {α : Type} : List (Nat × α) → Nat → List (Nat × α)
  | [], _ => []
  | (j, v) :: rest, k => if j = k then eraseKey rest k else (j, v) :: eraseKey rest k

/-- Rust `HashMap::insert` / `DashMap::insert`: bind the key, replacing any
previous binding. -/
def insertA {α : Type} (m : List (Nat × α)) (k : Nat) (v : α) : List (Nat × α) :=
  (k, v) :: eraseKey m k

/-- Rust `HashMap::contains_key`. -/
def containsA {α : Type} (m : List (Nat × α)) (k : Nat) : Bool :=
  (lookupA m k).isSome

/- ### Data model (src/src/models) -/

/-- Rust `pub type AccountId = u16` (the claims never exercise the width). -/
abbrev AccountId := Nat

/-- Rust `pub type TransactionId = u32` (the claims never exercise the width). -/
abbrev TransactionId := Nat

/-- Rust `enum TransactionType`. -/
inductive TransactionType where
  | deposit
  | withdrawal
  | dispute
  | resolve
  | chargeback
deriving DecidableEq, Repr

/-- Rust `enum DisputeStatus`. -/
inductive DisputeStatus where
  | inProgress
  | resolved
  | chargeback
deriving DecidableEq, Repr

/-- Rust `struct Transaction`. `amount` is carried as a `Monetary`: that is the
type `Account::apply` and models/tests.rs consume it at (the struct
declaration in transaction.rs names `Decimal`, but every use in the
account logic is `Monetary`). -/
structure Transaction where
  transaction_type : TransactionType
  transaction_id : TransactionId
  account_id : AccountId
  amount : Option Monetary
deriving DecidableEq, Repr

/-- Rust `enum AccountError` with the payload fields errors.rs gives each
variant (all filled from the transaction by the factory functions). -/
inductive AccountError where
  | AccountLocked (account_id : AccountId)
  | DuplicateTransaction (account_id : AccountId) (transaction_id : TransactionId)
      (transaction_type : TransactionType)
  | DuplicateDispute (account_id : AccountId) (transaction_id : TransactionId)
      (transaction_type : TransactionType)
  | TransactionNotFound (account_id : AccountId) (transaction_id : TransactionId)
      (transaction_type : TransactionType)
  | DisputeNotFound (account_id : AccountId) (transaction_id : TransactionId)
      (transaction_type : TransactionType)
  | AmountRequired (account_id : AccountId) (transaction_id : TransactionId)
      (transaction_type : TransactionType)
  | InsufficientFunds (account_id : AccountId) (transaction_id : TransactionId)
      (transaction_type : TransactionType)
  | DisputeNotInProgress (account_id : AccountId) (transaction_id : TransactionId)
      (transaction_type : TransactionType)
  | NegativeAmount (account_id : AccountId) (transaction_id : TransactionId)
      (transaction_type : TransactionType)
  | Overflow (account_id : AccountId) (transaction_id : TransactionId)
      (transaction_type : TransactionType)
deriving DecidableEq, Repr

/-- Rust `AccountError::account_locked` (factory from errors.rs). -/
def AccountError.account_locked (t : Transaction) : AccountError :=
  .AccountLocked t.account_id

/-- Rust `AccountError::duplicate_transaction`. -/
def AccountError.duplicate_transaction (t : Transaction) : AccountError :=
  .DuplicateTransaction t.account_id t.transaction_id t.transaction_type

/-- Rust `AccountError::duplicate_dispute`. -/
def AccountError.duplicate_dispute (t : Transaction) : AccountError :=
  .DuplicateDispute t.account_id t.transaction_id t.transaction_type

/-- Rust `AccountError::transaction_not_found`. -/
def AccountError.transaction_not_found (t : Transaction) : AccountError :=
  .TransactionNotFound t.account_id t.transaction_id t.transaction_type

/-- Rust `AccountError::dispute_not_found`. -/
def AccountError.dispute_not_found (t : Transaction) : AccountError :=
  .DisputeNotFound t.account_id t.transaction_id t.transaction_type

/-- Rust `AccountError::amount_required`. -/
def AccountError.amount_required (t : Transaction) : AccountError :=
  .AmountRequired t.account_id t.transaction_id t.transaction_type

/-- Rust `AccountError::insufficient_funds`. -/
def AccountError.insufficient_funds (t : Transaction) : AccountError :=
  .InsufficientFunds t.account_id t.transaction_id t.transaction_type

/-- Rust `AccountError::dispute_not_in_progress`. -/
def AccountError.dispute_not_in_progress (t : Transaction) : AccountError :=
  .DisputeNotInProgress t.account_id t.transaction_id t.transaction_type

/-- Rust `AccountError::negative_amount`. -/
def AccountError.negative_amount (t : Transaction) : AccountError :=
  .NegativeAmount t.account_id t.transaction_id t.transaction_type

/-- Rust `AccountError::overflow`. -/
def AccountError.overflow (t : Transaction) : AccountError :=
  .Overflow t.account_id t.transaction_id t.transaction_type

/-- Rust `struct Account` from account.rs. -/
structure Account where
  account_id : AccountId
  available : Monetary
  held : Monetary
  locked : Bool
  ledger : List (TransactionId × Monetary)
  disputes : List (TransactionId × DisputeStatus)
deriving DecidableEq, Repr

/-- Rust `Account::new`. -/
def Account.new (account_id : AccountId) : Account :=
  { account_id := account_id
    available := Monetary.new
    held := Monetary.new
    locked := false
    ledger := []
    disputes := [] }

/-- Rust `Account::total`: `let mut total = self.available; total += self.held`
— the AddAssign silently keeps `available` on overflow. -/
def Account.total (a : Account) : Monetary :=
  Monetary.add_assign a.available a.held

/-- Rust `Account::get_deposit`: ledger lookup or `TransactionNotFound`. -/
def Account.get_deposit (a : Account) (t : Transaction) : Except AccountError Monetary :=
  match lookupA a.ledger t.transaction_id with
  | some amount => .ok amount
  | none => .error (AccountError.transaction_not_found t)

/-- Rust `Account::check_dispute_in_progress`. -/
def Account.check_dispute_in_progress (a : Account) (t : Transaction) :
    Except AccountError Unit :=
  match lookupA a.disputes t.transaction_id with
  | none => .error (AccountError.dispute_not_found t)
  | some status =>
      if status ≠ DisputeStatus.inProgress then
        .error (AccountError.dispute_not_in_progress t)
      else
        .ok ()

/-- Rust `Account::deposit`. The duplicate-transaction check runs first, then
the absent-amount check, then the negativity check, then the checked add.
The state is returned alongside the optional error (a `&mut self`
method). -/
def Account.deposit (a : Account) (t : Transaction) : Account × Option AccountError :=
  if containsA a.ledger t.transaction_id then
    (a, some (AccountError.duplicate_transaction t))
  else
    match t.amount with
    | none => (a, some (AccountError.amount_required t))
    | some amount =>
        if amount.is_negative then
          (a, some (AccountError.negative_amount t))
        else
          match Monetary.checked_add a.available amount with
          | none => (a, some (AccountError.overflow t))
          | some v =>
              ({ a with
                  available := v
                  ledger := insertA a.ledger t.transaction_id amount }, none)

/-- Rust `Account::withdrawal`. -/
def Account.withdrawal (a : Account) (t : Transaction) : Account × Option AccountError :=
  match t.amount with
  | none => (a, some (AccountError.amount_required t))
  | some amount =>
      if amount.is_negative then
        (a, some (AccountError.negative_amount t))
      else if a.available < amount then
        (a, some (AccountError.insufficient_funds t))
      else
        match Monetary.checked_sub a.available amount with
        | none => (a, some (AccountError.overflow t))
        | some v => ({ a with available := v }, none)

/-- Rust `Account::dispute`. Note the Rust code assigns `self.available` from
the first checked subtraction *before* the checked addition into `held`
can fail, so an overflow on the `held` update leaves the `available`
mutation behind; the embedding reproduces that. -/
def Account.dispute (a : Account) (t : Transaction) : Account × Option AccountError :=
  if containsA a.disputes t.transaction_id then
    (a, some (AccountError.duplicate_dispute t))
  else
    match lookupA a.ledger t.transaction_id with
    | none => (a, some (AccountError.transaction_not_found t))
    | some amount =>
        match Monetary.checked_sub a.available amount with
        | none => (a, some (AccountError.overflow t))
        | some av =>
            let a1 := { a with available := av }
            match Monetary.checked_add a1.held amount with
            | none => (a1, some (AccountError.overflow t))
            | some h =>
                ({ a1 with
                    held := h
                    disputes :=
                      insertA a1.disputes t.transaction_id DisputeStatus.inProgress },
                  none)

/-- Rust `Account::resolve`. As in `dispute`, `available` is committed before
the `held` update can fail. -/
def Account.resolve (a : Account) (t : Transaction) : Account × Option AccountError :=
  match a.check_dispute_in_progress t with
  | .error e => (a, some e)
  | .ok _ =>
      match a.get_deposit t with
      | .error e => (a, some e)
      | .ok amount =>
          match Monetary.checked_add a.available amount with
          | none => (a, some (AccountError.overflow t))
          | some av =>
              let a1 := { a with available := av }
              match Monetary.checked_sub a1.held amount with
              | none => (a1, some (AccountError.overflow t))
              | some h =>
                  ({ a1 with
                      held := h
                      disputes :=
                        insertA a1.disputes t.transaction_id DisputeStatus.resolved },
                    none)

/-- Rust `Account::chargeback`. The only fallible step (`held` checked sub)
runs before any mutation, then `locked` is set and the dispute recorded. -/
def Account.chargeback (a : Account) (t : Transaction) : Account × Option AccountError :=
  match a.check_dispute_in_progress t with
  | .error e => (a, some e)
  | .ok _ =>
      match a.get_deposit t with
      | .error e => (a, some e)
      | .ok amount =>
          match Monetary.checked_sub a.held amount with
          | none => (a, some (AccountError.overflow t))
          | some h =>
              ({ a with
                  held := h
                  locked := true
                  disputes :=
                    insertA a.disputes t.transaction_id DisputeStatus.chargeback },
                none)

/-- Rust `Account::apply`: locked pre-check, then dispatch on the transaction
type. -/
def Account.apply (a : Account) (t : Transaction) : Account × Option AccountError :=
  if a.locked then
    (a, some (AccountError.account_locked t))
  else
    match t.transaction_type with
    | .deposit => a.deposit t
    | .withdrawal => a.withdrawal t
    | .dispute => a.dispute t
    | .resolve => a.resolve t
    | .chargeback => a.chargeback t

/-- Fold a list of transactions over a fresh account, keeping whatever
state each `apply` leaves (errors are logged and dropped by the worker). -/
def runEvents (id : AccountId) (ts : List Transaction) : Account :=
  ts.foldl (fun a t => (a.apply t).1) (Account.new id)

end ATE

namespace ATE

/- ### Account store (src/src/storage/account_storage.rs) -/

/-- Rust `struct AccountStorage { cache: Arc<DashMap<AccountId, Account>> }`. -/
structure AccountStorage where
  cache : List (AccountId × Account)
deriving DecidableEq, Repr

/-- Rust `AccountStorage::new`. -/
def AccountStorage.new : AccountStorage := ⟨[]⟩

/-- Rust `Storage::load` for `AccountStorage`: implemented as
`self.cache.remove(&account_id)` — it takes the entry *out* of the map and
returns it. The embedding returns the removed value together with the
post-call store. -/
def AccountStorage.load (s : AccountStorage) (id : AccountId) :
    Option Account × AccountStorage :=
  (lookupA s.cache id, ⟨eraseKey s.cache id⟩)

/-- Rust `Storage::save` for `AccountStorage`: `self.cache.insert(...)`,
replacing any existing entry. -/
def AccountStorage.save (s : AccountStorage) (id : AccountId) (a : Account) :
    AccountStorage :=
  ⟨insertA s.cache id a⟩

/-- Rust `AccountStorage::iter`: snapshot iteration over the cache entries. -/
def AccountStorage.iter (s : AccountStorage) : List (AccountId × Account) :=
  s.cache

/- ### Association-list lemmas -/

theorem lookupA_eraseKey_self {α : Type} (m : List (Nat × α)) (k : Nat) :
    lookupA (eraseKey m k) k = none := by
  induction m with
  | nil => rfl
  | cons p rest ih =>
      obtain ⟨j, v⟩ := p
      by_cases h : j = k
      · simpa [eraseKey, h] using ih
      · simpa [eraseKey, h, lookupA, Ne.symm h] using ih

theorem lookupA_eraseKey_ne {α : Type} (m : List (Nat × α)) (k j : Nat)
    (h : j ≠ k) : lookupA (eraseKey m k) j = lookupA m j := by
  induction m with
  | nil => rfl
  | cons p rest ih =>
      obtain ⟨i, v⟩ := p
      by_cases hik : i = k
      · subst hik
        simpa [eraseKey, lookupA, h] using ih
      · by_cases hji : j = i
        · simp [eraseKey, hik, lookupA, hji]
        · simpa [eraseKey, hik, lookupA, hji] using ih

theorem lookupA_insertA_self {α : Type} (m : List (Nat × α)) (k : Nat) (v : α) :
    lookupA (insertA m k v) k = some v := by
  simp [insertA, lookupA]

theorem lookupA_insertA_ne {α : Type} (m : List (Nat × α)) (k j : Nat) (v : α)
    (h : j ≠ k) : lookupA (insertA m k v) j = lookupA m j := by
  simp [insertA, lookupA, h]
  exact lookupA_eraseKey_ne m k j h

end ATE

namespace ATE

/- ### Claim C6 -/

/-- C6: for every account with `locked == true` and every event of any
kind, `Account::apply` returns `AccountLocked` (built only from the
event's account id, without inspecting the event body) and returns the
account completely unchanged. -/
theorem C6_locked_account_rejects_everything (a : Account) (t : Transaction)
    (h : a.locked = true) :
    a.apply t = (a, some (AccountError.account_locked t)) := by
  simp [Account.apply, h]

/-- Witness for C6 at a concrete locked account and a concrete deposit
event. -/
theorem C6_locked_account_rejects_everything_witness :
    (Account.mk 5 100 0 true [] []).apply (Transaction.mk .deposit 9 5 (some 3))
      = (Account.mk 5 100 0 true [] [], some (AccountError.AccountLocked 5)) :=
  C6_locked_account_rejects_everything
    (Account.mk 5 100 0 true [] []) (Transaction.mk .deposit 9 5 (some 3)) rfl

/- ### Claim C10 -/

/-- C10: a Dispute does not require `available >= disputed amount`: on an
unlocked account whose ledger holds the disputed deposit and whose
disputes map does not yet mention the transaction, if neither checked
arithmetic step overflows, the dispute succeeds, moving the amount from
`available` (which may go negative) into `held`. -/
theorem C10_dispute_does_not_check_available (a : Account) (t : Transaction)
    (v : Monetary)
    (hl : a.locked = false)
    (ht : t.transaction_type = .dispute)
    (hd : containsA a.disputes t.transaction_id = false)
    (hv : lookupA a.ledger t.transaction_id = some v)
    (hs1 : I64.MIN ≤ a.available - v) (hs2 : a.available - v ≤ I64.MAX)
    (ha1 : I64.MIN ≤ a.held + v) (ha2 : a.held + v ≤ I64.MAX) :
    a.apply t =
      ({ a with
          available := a.available - v
          held := a.held + v
          disputes := insertA a.disputes t.transaction_id DisputeStatus.inProgress },
        none) := by
  simp [Account.apply, hl, ht, Account.dispute, hd, hv,
    Monetary.checked_sub, Monetary.checked_add, hs1, hs2, ha1, ha2]

/-- Witness for C10: an account with `available = 40` disputes a recorded
deposit of 100 (so `available < amount`), and the dispute still succeeds,
leaving `available = -60` and `held = 100`. -/
theorem C10_dispute_does_not_check_available_witness :
    (40 : Int) < 100 ∧
      (Account.mk 1 40 0 false [(1, 100)] []).apply (Transaction.mk .dispute 1 1 none)
        = (Account.mk 1 (-60) 100 false [(1, 100)] [(1, DisputeStatus.inProgress)],
            none) := by
  refine ⟨by norm_num, ?_⟩
  have h := C10_dispute_does_not_check_available
    (Account.mk 1 40 0 false [(1, 100)] []) (Transaction.mk .dispute 1 1 none) 100
    rfl rfl rfl rfl (by decide) (by decide) (by decide) (by decide)
  simpa [insertA, eraseKey] using h

/- ### Claim C4 -/

/-- Counterexample to C4 as stated: a Deposit with an *absent* amount
whose transaction id is already in the ledger returns
`DuplicateTransaction`, not `AmountRequired` — the code checks the ledger
before looking at the amount. The account is reached by an accepted
deposit of 5 under transaction id 7. -/
theorem C4_counterexample :
    (((Account.new 1).apply (Transaction.mk .deposit 7 1 (some 5))).1.apply
        (Transaction.mk .deposit 7 1 none)).2
      = some (AccountError.DuplicateTransaction 1 7 .deposit) ∧
    (((Account.new 1).apply (Transaction.mk .deposit 7 1 (some 5))).1.apply
        (Transaction.mk .deposit 7 1 none)).2
      ≠ some (AccountError.AmountRequired 1 7 .deposit) := by
  decide

/-- C4 as amended: for a Deposit on an unlocked account the code checks,
in order, duplicate transaction id first, then absent amount, then
negative amount: a duplicate id yields `DuplicateTransaction` regardless
of the amount field, an absent amount on a fresh id yields
`AmountRequired`, and a negative amount on a fresh id yields
`NegativeAmount`. -/
theorem C4_deposit_check_order (a : Account) (t : Transaction)
    (hl : a.locked = false) (ht : t.transaction_type = .deposit) :
    (containsA a.ledger t.transaction_id = true →
        (a.apply t).2 = some (AccountError.duplicate_transaction t)) ∧
    (containsA a.ledger t.transaction_id = false → t.amount = none →
        (a.apply t).2 = some (AccountError.amount_required t)) ∧
    (∀ v : Monetary, containsA a.ledger t.transaction_id = false →
        t.amount = some v → v < 0 →
        (a.apply t).2 = some (AccountError.negative_amount t)) := by
  refine ⟨fun hdup => ?_, fun hdup hnone => ?_, fun v hdup hsome hneg => ?_⟩
  · simp [Account.apply, hl, ht, Account.deposit, hdup]
  · simp [Account.apply, hl, ht, Account.deposit, hdup, hnone]
  · simp [Account.apply, hl, ht, Account.deposit, hdup, hsome,
      Monetary.is_negative, hneg]

/-- Witness for C4's amended claim: the duplicate-id check fires first on
the concrete account of the counterexample. -/
theorem C4_deposit_check_order_witness :
    (((Account.new 1).apply (Transaction.mk .deposit 7 1 (some 5))).1.apply
        (Transaction.mk .deposit 7 1 none)).2
      = some (AccountError.duplicate_transaction (Transaction.mk .deposit 7 1 none)) :=
  (C4_deposit_check_order
      ((Account.new 1).apply (Transaction.mk .deposit 7 1 (some 5))).1
      (Transaction.mk .deposit 7 1 none) (by decide) rfl).1 (by decide)

end ATE

namespace ATE

/- ### Claim C8 -/

/-- C8: disputes are one-shot per transaction id. On an unlocked account
a Dispute whose id is already in the disputes map (whatever the status)
returns `DuplicateDispute`; a Resolve or Chargeback returns
`DisputeNotFound` when the entry is absent and `DisputeNotInProgress`
when its status is not `InProgress`; and when a Resolve or Chargeback
succeeds the dispute entry was `InProgress`. -/
theorem C8_disputes_are_one_shot (a : Account) (t : Transaction)
    (hl : a.locked = false) :
    (t.transaction_type = .dispute →
        containsA a.disputes t.transaction_id = true →
        (a.apply t).2 = some (AccountError.duplicate_dispute t)) ∧
    ((t.transaction_type = .resolve ∨ t.transaction_type = .chargeback) →
      (lookupA a.disputes t.transaction_id = none →
          (a.apply t).2 = some (AccountError.dispute_not_found t)) ∧
      (∀ st : DisputeStatus, lookupA a.disputes t.transaction_id = some st →
          st ≠ DisputeStatus.inProgress →
          (a.apply t).2 = some (AccountError.dispute_not_in_progress t)) ∧
      ((a.apply t).2 = none →
          lookupA a.disputes t.transaction_id = some DisputeStatus.inProgress)) := by
  constructor
  · intro ht hdup
    simp [Account.apply, hl, ht, Account.dispute, hdup]
  · intro ht
    refine ⟨fun habs => ?_, fun st hst hne => ?_, fun hok => ?_⟩
    · rcases ht with ht | ht <;>
        simp [Account.apply, hl, ht, Account.resolve, Account.chargeback,
          Account.check_dispute_in_progress, habs]
    · rcases ht with ht | ht <;>
        simp [Account.apply, hl, ht, Account.resolve, Account.chargeback,
          Account.check_dispute_in_progress, hst, hne]
    · by_contra hno
      rcases hlook : lookupA a.disputes t.transaction_id with _ | st
      · rcases ht with ht | ht <;>
          simp [Account.apply, hl, ht, Account.resolve, Account.chargeback,
            Account.check_dispute_in_progress, hlook] at hok
      · have hne : st ≠ DisputeStatus.inProgress := by
          intro he
          exact hno (he ▸ hlook)
        rcases ht with ht | ht <;>
          simp [Account.apply, hl, ht, Account.resolve, Account.chargeback,
            Account.check_dispute_in_progress, hlook, hne] at hok

/-- Witness for C8 at a concrete account whose transaction 1 has already
been resolved: a second Resolve returns `DisputeNotInProgress`. -/
theorem C8_disputes_are_one_shot_witness :
    ((Account.mk 1 100 0 false [(1, 100)] [(1, DisputeStatus.resolved)]).apply
        (Transaction.mk .resolve 1 1 none)).2
      = some (AccountError.dispute_not_in_progress (Transaction.mk .resolve 1 1 none)) :=
  ((C8_disputes_are_one_shot
      (Account.mk 1 100 0 false [(1, 100)] [(1, DisputeStatus.resolved)])
      (Transaction.mk .resolve 1 1 none) rfl).2 (Or.inl rfl)).2.1
    DisputeStatus.resolved (by decide) (by decide)

/- ### Claims C1 and C3: shared overflow scenario -/

/-- Deposit of `i64::MAX` ten-thousandths under transaction id 1. -/
def txDep1 : Transaction := Transaction.mk .deposit 1 1 (some I64.MAX)

/-- Dispute of transaction 1. -/
def txDisp1 : Transaction := Transaction.mk .dispute 1 1 none

/-- Deposit of `i64::MAX` ten-thousandths under transaction id 2. -/
def txDep2 : Transaction := Transaction.mk .deposit 2 1 (some I64.MAX)

/-- Dispute of transaction 2. -/
def txDisp2 : Transaction := Transaction.mk .dispute 2 1 none

/-- The account reached by the three accepted events
deposit(1, MAX); dispute(1); deposit(2, MAX): it holds
`available = held = i64::MAX`. -/
def overflowAccount : Account := runEvents 1 [txDep1, txDisp1, txDep2]

/-- C1 is a code bug: `Account::dispute` commits the new `available`
before the checked addition into `held` can fail. Starting from a fresh
account, the three events deposit(1, MAX); dispute(1); deposit(2, MAX)
are all accepted and leave `available = i64::MAX`; the next event,
dispute(2), returns `Overflow` — yet `available` has already been
overwritten with 0, a partial mutation that the error leaves behind. -/
theorem C1_error_leaves_partial_mutation :
    ((Account.new 1).apply txDep1).2 = none ∧
    (((Account.new 1).apply txDep1).1.apply txDisp1).2 = none ∧
    ((((Account.new 1).apply txDep1).1.apply txDisp1).1.apply txDep2).2 = none ∧
    overflowAccount.available = I64.MAX ∧
    (overflowAccount.apply txDisp2).2 = some (AccountError.Overflow 1 2 .dispute) ∧
    (overflowAccount.apply txDisp2).1.available = 0 ∧
    (overflowAccount.apply txDisp2).1 ≠ overflowAccount := by
  decide

/-- C3 is a code bug: after the accepted events deposit(1, MAX);
dispute(1); deposit(2, MAX) the sum `available + held` equals
2·i64::MAX, which is not representable, and `Account::total` (whose
`AddAssign` silently keeps the left operand on overflow) returns
`available` alone — the overflow is silently lost exactly as the
spec's I1 forbids. -/
theorem C3_total_overflows_after_accepted_events :
    ((Account.new 1).apply txDep1).2 = none ∧
    (((Account.new 1).apply txDep1).1.apply txDisp1).2 = none ∧
    ((((Account.new 1).apply txDep1).1.apply txDisp1).1.apply txDep2).2 = none ∧
    overflowAccount.available + overflowAccount.held > I64.MAX ∧
    overflowAccount.total = overflowAccount.available ∧
    overflowAccount.total ≠ overflowAccount.available + overflowAccount.held := by
  decide

end ATE

namespace ATE

/- ### Claim C2 -/

/-- Counterexample to C2 as stated: after `save(1, a)` a first `load(1)`
does return `Some(a)`, but `load` is implemented with `DashMap::remove`,
so it destroys the entry: a second `load(1)` with no intervening save
returns `None`. -/
theorem C2_counterexample :
    ((AccountStorage.new.save 1 (Account.new 1)).load 1).1 = some (Account.new 1) ∧
    (((AccountStorage.new.save 1 (Account.new 1)).load 1).2.load 1).1 = none := by
  decide

/-- C2 as amended: the store retains the latest saved state only until it
is loaded: after `save(id, a)`, `load(id)` returns `Some(a)` but removes
the entry (check-out semantics — the caller takes ownership and is
expected to save back), so a second `load(id)` with no intervening save
returns `None` and the account no longer appears in snapshot iteration. -/
theorem C2_load_checks_out_the_account (s : AccountStorage) (id : AccountId)
    (a : Account) :
    ((s.save id a).load id).1 = some a ∧
    (((s.save id a).load id).2.load id).1 = none ∧
    lookupA (((s.save id a).load id).2.iter) id = none := by
  refine ⟨?_, ?_, ?_⟩
  · simpa [AccountStorage.save, AccountStorage.load] using
      lookupA_insertA_self s.cache id a
  · simpa [AccountStorage.save, AccountStorage.load] using
      lookupA_eraseKey_self (insertA s.cache id a) id
  · simpa [AccountStorage.save, AccountStorage.load, AccountStorage.iter] using
      lookupA_eraseKey_self (insertA s.cache id a) id

/- ### Claim C9 -/

/-- A successful `check_dispute_in_progress` means the disputes map holds
`InProgress` for the transaction id. -/
theorem check_ok_means_in_progress (a : Account) (t : Transaction)
    (h : a.check_dispute_in_progress t = .ok ()) :
    lookupA a.disputes t.transaction_id = some DisputeStatus.inProgress := by
  unfold Account.check_dispute_in_progress at h
  rcases hl : lookupA a.disputes t.transaction_id with _ | st <;> rw [hl] at h
  · exact Except.noConfusion h
  · by_cases hst : st = DisputeStatus.inProgress
    · rw [hst]
    · simp [hst] at h

/-- A successful `get_deposit` means the ledger binds the transaction id. -/
theorem get_deposit_ok (a : Account) (t : Transaction) (amount : Monetary)
    (h : a.get_deposit t = .ok amount) :
    lookupA a.ledger t.transaction_id = some amount := by
  unfold Account.get_deposit at h
  rcases hl : lookupA a.ledger t.transaction_id with _ | v <;> rw [hl] at h
  · exact Except.noConfusion h
  · injection h with h2
    rw [h2]

/-- Rust `Account::deposit` keeps a transaction id other than its own unbound
in both maps. -/
theorem deposit_preserves_unbound (a : Account) (t : Transaction) (k : TransactionId)
    (hled : lookupA a.ledger k = none) (hdis : lookupA a.disputes k = none)
    (hne : t.transaction_id ≠ k) :
    lookupA (a.deposit t).1.ledger k = none ∧
    lookupA (a.deposit t).1.disputes k = none := by
  unfold Account.deposit
  split
  · exact ⟨hled, hdis⟩
  · split
    · exact ⟨hled, hdis⟩
    · split
      · exact ⟨hled, hdis⟩
      · split
        · exact ⟨hled, hdis⟩
        · exact ⟨by simpa [lookupA_insertA_ne _ _ _ _ (fun h => hne h.symm)] using hled,
            hdis⟩

/-- Rust `Account::withdrawal` never touches the ledger or the disputes map. -/
theorem withdrawal_preserves_unbound (a : Account) (t : Transaction) (k : TransactionId)
    (hled : lookupA a.ledger k = none) (hdis : lookupA a.disputes k = none) :
    lookupA (a.withdrawal t).1.ledger k = none ∧
    lookupA (a.withdrawal t).1.disputes k = none := by
  unfold Account.withdrawal
  split
  · exact ⟨hled, hdis⟩
  · split
    · exact ⟨hled, hdis⟩
    · split
      · exact ⟨hled, hdis⟩
      · split
        · exact ⟨hled, hdis⟩
        · exact ⟨hled, hdis⟩

/-- Rust `Account::dispute` keeps an id unbound in both maps when it is unbound
in the ledger (a dispute entry is only created for a ledger id). -/
theorem dispute_preserves_unbound (a : Account) (t : Transaction) (k : TransactionId)
    (hled : lookupA a.ledger k = none) (hdis : lookupA a.disputes k = none) :
    lookupA (a.dispute t).1.ledger k = none ∧
    lookupA (a.dispute t).1.disputes k = none := by
  unfold Account.dispute
  dsimp only
  split
  · exact ⟨hled, hdis⟩
  · split
    · exact ⟨hled, hdis⟩
    · rename_i amount hlook
      have hne : t.transaction_id ≠ k := by
        intro he
        rw [he, hled] at hlook
        exact Option.noConfusion hlook
      split
      · exact ⟨hled, hdis⟩
      · split
        · exact ⟨hled, hdis⟩
        · exact ⟨hled,
            by simpa [lookupA_insertA_ne _ _ _ _ (fun h => hne h.symm)] using hdis⟩

/-- Rust `Account::resolve` keeps an id unbound in both maps when it is unbound
in the disputes map (it only rewrites an existing dispute entry). -/
theorem resolve_preserves_unbound (a : Account) (t : Transaction) (k : TransactionId)
    (hled : lookupA a.ledger k = none) (hdis : lookupA a.disputes k = none) :
    lookupA (a.resolve t).1.ledger k = none ∧
    lookupA (a.resolve t).1.disputes k = none := by
  unfold Account.resolve
  dsimp only
  split
  · exact ⟨hled, hdis⟩
  · rename_i u hchk
    have hne : t.transaction_id ≠ k := by
      intro he
      have := check_ok_means_in_progress a t (by cases u; exact hchk)
      rw [he, hdis] at this
      exact Option.noConfusion this
    split
    · exact ⟨hled, hdis⟩
    · split
      · exact ⟨hled, hdis⟩
      · split
        · exact ⟨hled, hdis⟩
        · exact ⟨hled,
            by simpa [lookupA_insertA_ne _ _ _ _ (fun h => hne h.symm)] using hdis⟩

/-- Rust `Account::chargeback` keeps an id unbound in both maps when it is
unbound in the disputes map. -/
theorem chargeback_preserves_unbound (a : Account) (t : Transaction) (k : TransactionId)
    (hled : lookupA a.ledger k = none) (hdis : lookupA a.disputes k = none) :
    lookupA (a.chargeback t).1.ledger k = none ∧
    lookupA (a.chargeback t).1.disputes k = none := by
  unfold Account.chargeback
  split
  · exact ⟨hled, hdis⟩
  · rename_i u hchk
    have hne : t.transaction_id ≠ k := by
      intro he
      have := check_ok_means_in_progress a t (by cases u; exact hchk)
      rw [he, hdis] at this
      exact Option.noConfusion this
    split
    · exact ⟨hled, hdis⟩
    · split
      · exact ⟨hled, hdis⟩
      · exact ⟨hled,
          by simpa [lookupA_insertA_ne _ _ _ _ (fun h => hne h.symm)] using hdis⟩

/-- Single-step preservation: if transaction id `k` is bound neither in
the ledger nor in the disputes map, and the applied event is not a
deposit under id `k`, both stay unbound after `Account::apply` —
whatever the event and whether it succeeds or fails. -/
theorem apply_preserves_unbound_id (a : Account) (t : Transaction) (k : TransactionId)
    (hled : lookupA a.ledger k = none)
    (hdis : lookupA a.disputes k = none)
    (hdep : t.transaction_type = .deposit → t.transaction_id ≠ k) :
    lookupA (a.apply t).1.ledger k = none ∧
    lookupA (a.apply t).1.disputes k = none := by
  by_cases hl : a.locked = true
  · simp [Account.apply, hl, hled, hdis]
  · rcases htt : t.transaction_type with _ | _ | _ | _ | _ <;>
      simp only [Account.apply, hl, Bool.false_eq_true, if_false, htt,
        Bool.not_eq_true] at *
    · exact deposit_preserves_unbound a t k hled hdis (hdep trivial)
    · exact withdrawal_preserves_unbound a t k hled hdis
    · exact dispute_preserves_unbound a t k hled hdis
    · exact resolve_preserves_unbound a t k hled hdis
    · exact chargeback_preserves_unbound a t k hled hdis

/-- Folded preservation over an event sequence, from any starting account
in which `k` is unbound. -/
theorem foldl_preserves_unbound_id (ts : List Transaction) (a : Account)
    (k : TransactionId)
    (hled : lookupA a.ledger k = none)
    (hdis : lookupA a.disputes k = none)
    (hdep : ∀ u ∈ ts, u.transaction_type = .deposit → u.transaction_id ≠ k) :
    lookupA (ts.foldl (fun a t => (a.apply t).1) a).ledger k = none ∧
    lookupA (ts.foldl (fun a t => (a.apply t).1) a).disputes k = none := by
  induction ts generalizing a with
  | nil => exact ⟨hled, hdis⟩
  | cons t rest ih =>
      have hstep := apply_preserves_unbound_id a t k hled hdis
        (hdep t (List.mem_cons_self t rest))
      exact ih (a.apply t).1 hstep.1 hstep.2
        (fun u hu => hdep u (List.mem_cons_of_mem t hu))

end ATE

namespace ATE

/-- Events for the C9 counterexample: a deposit, a withdrawal under id 2,
then a dispute and chargeback of the deposit, which locks the account. -/
def ctsC9 : List Transaction :=
  [Transaction.mk .deposit 1 1 (some 100), Transaction.mk .withdrawal 2 1 (some 50),
    Transaction.mk .dispute 1 1 none, Transaction.mk .chargeback 1 1 none]

/-- The dispute of the withdrawal-only id 2 in the C9 scenarios. -/
def txC9 : Transaction := Transaction.mk .dispute 2 1 none

/-- Counterexample to C9 as stated: transaction id 2 is used only by a
withdrawal in `ctsC9`, yet disputing it after the chargeback locked the
account returns `AccountLocked`, not `TransactionNotFound` — the locked
pre-check fires before the ledger lookup. -/
theorem C9_counterexample :
    (ctsC9.all fun u =>
        !(u.transaction_type == TransactionType.deposit && u.transaction_id == 2))
      = true ∧
    ((runEvents 1 ctsC9).apply txC9).2 = some (AccountError.AccountLocked 1) ∧
    ((runEvents 1 ctsC9).apply txC9).2
      ≠ some (AccountError.transaction_not_found txC9) := by
  decide

/-- C9 as amended: disputing a transaction id that no deposit in the
account's history ever used — in particular an id used only by
withdrawals — never succeeds: it returns `AccountLocked` when a prior
chargeback locked the account, and `TransactionNotFound` otherwise. -/
theorem C9_dispute_of_withdrawal_id_never_succeeds (id : AccountId)
    (ts : List Transaction) (k : TransactionId) (t : Transaction)
    (hdep : ∀ u ∈ ts, u.transaction_type = .deposit → u.transaction_id ≠ k)
    (ht : t.transaction_type = .dispute) (hk : t.transaction_id = k) :
    ((runEvents id ts).apply t).2 =
      some (if (runEvents id ts).locked then AccountError.account_locked t
            else AccountError.transaction_not_found t) := by
  have hinv := foldl_preserves_unbound_id ts (Account.new id) k rfl rfl hdep
  have hled : lookupA (runEvents id ts).ledger k = none := hinv.1
  have hdis : lookupA (runEvents id ts).disputes k = none := hinv.2
  by_cases hl : (runEvents id ts).locked = true
  · simp [Account.apply, hl]
  · have hlf : (runEvents id ts).locked = false := by
      simpa using hl
    have hcont : containsA (runEvents id ts).disputes t.transaction_id = false := by
      rw [hk]
      simp [containsA, hdis]
    have hlook : lookupA (runEvents id ts).ledger t.transaction_id = none := by
      rw [hk]
      exact hled
    simp [Account.apply, hlf, ht, Account.dispute, hcont, hlook]

/-- Events for the C9 witness: a deposit under id 1 and a withdrawal
under id 2, with the account left unlocked. -/
def wtsC9 : List Transaction :=
  [Transaction.mk .deposit 1 1 (some 100), Transaction.mk .withdrawal 2 1 (some 50)]

/-- Witness for C9's amended claim: on the unlocked account of `wtsC9`,
disputing the withdrawal-only id 2 returns `TransactionNotFound`. -/
theorem C9_dispute_of_withdrawal_id_never_succeeds_witness :
    ((runEvents 1 wtsC9).apply txC9).2
      = some (AccountError.TransactionNotFound 1 2 TransactionType.dispute) := by
  rw [C9_dispute_of_withdrawal_id_never_succeeds 1 wtsC9 2 txC9 (by decide) rfl rfl]
  decide

end ATE

namespace ATE

/- ### Monetary text format and parse (src/src/types/monetary.rs) -/

/-- The ASCII digit character for `n < 10`. -/
def digitChar (n : Nat) : Char := Char.ofNat (48 + n)

/-- The numeric value of an ASCII digit character, if it is one. -/
def charDigitVal (c : Char) : Option Nat :=
  if 48 ≤ c.toNat ∧ c.toNat ≤ 57 then some (c.toNat - 48) else none

/-- Decimal digits of a natural number, most significant first, with an
explicit fuel argument so the definition stays structurally recursive
(the fuel `n + 1` always suffices). -/
def natDigitsAux : Nat → Nat → List Char
  | 0, _ => []
  | fuel + 1, n =>
      if n < 10 then [digitChar n]
      else natDigitsAux fuel (n / 10) ++ [digitChar (n % 10)]

/-- Decimal digits of a natural number, most significant first. -/
def natDigits (n : Nat) : List Char := natDigitsAux (n + 1) n

/-- Left-to-right accumulation of decimal digits; fails on the first
character that is not an ASCII digit. -/
def digitsToNatAux : List Char → Nat → Option Nat
  | [], acc => some acc
  | c :: rest, acc =>
      match charDigitVal c with
      | some d => digitsToNatAux rest (acc * 10 + d)
      | none => none

/-- Value of a nonempty all-digit string; `none` on an empty string or on
any non-digit. -/
def digitsToNat : List Char → Option Nat
  | [] => none
  | c :: rest => digitsToNatAux (c :: rest) 0

/-- Rust `str::parse::<i64>`: an optional leading sign, then one or more
ASCII digits, with the result required to fit in `i64` range. -/
def parseI64 (s : List Char) : Option Int :=
  match s with
  | [] => none
  | c :: rest =>
      if c = '-' then
        match digitsToNat rest with
        | some n => if (n : Int) ≤ 2 ^ 63 then some (-(n : Int)) else none
        | none => none
      else if c = '+' then
        match digitsToNat rest with
        | some n => if (n : Int) ≤ I64.MAX then some ((n : Int)) else none
        | none => none
      else
        match digitsToNat (c :: rest) with
        | some n => if (n : Int) ≤ I64.MAX then some ((n : Int)) else none
        | none => none

/-- Rust `str::split('.')`: split at every dot, keeping empty pieces. -/
def splitOnDot : List Char → List (List Char)
  | [] => [[]]
  | c :: rest =>
      if c = '.' then [] :: splitOnDot rest
      else
        match splitOnDot rest with
        | [] => [[c]]
        | h :: r => (c :: h) :: r

/-- ASCII whitespace, as trimmed by `str::trim` on the inputs of
interest. -/
def wsChar (c : Char) : Bool := c.toNat = 32 ∨ (9 ≤ c.toNat ∧ c.toNat ≤ 13)

/-- Rust `str::trim`. -/
def trimChars (s : List Char) : List Char :=
  ((s.dropWhile wsChar).reverse.dropWhile wsChar).reverse

/-- Rust `format!("{:0<width$}", s)`: pad on the right with zeros up to
`width` characters. -/
def padRightZeros (w : Nat) (s : List Char) : List Char :=
  s ++ List.replicate (w - s.length) (digitChar 0)

/-- Left zero padding up to `width` characters. -/
def padLeftZeros (w : Nat) (s : List Char) : List Char :=
  List.replicate (w - s.length) (digitChar 0) ++ s

/-- Rust `{}` formatting of an `i64`. -/
def fmtI64 (n : Int) : List Char :=
  if n < 0 then '-' :: natDigits (-n).toNat else natDigits n.toNat

/-- Rust `{:0width$}` formatting of an `i64`: zero padding counts the
sign character. -/
def fmtI64Pad (w : Nat) (n : Int) : List Char :=
  if n < 0 then '-' :: padLeftZeros (w - 1) (natDigits (-n).toNat)
  else padLeftZeros w (natDigits n.toNat)

/-- Rust release-mode `i64::abs`: two's-complement wrapping, so
`i64::MIN` maps to itself (a debug build would panic there). -/
def absWrap64 (n : Int) : Int :=
  if n = I64.MIN then I64.MIN else if n < 0 then -n else n

/-- Rust `i64` division: truncation toward zero (every use here has a
positive divisor). -/
def rustDiv (a b : Int) : Int :=
  if a < 0 then -(((-a).toNat / b.toNat : Nat) : Int)
  else ((a.toNat / b.toNat : Nat) : Int)

/-- Rust `i64` remainder: `a - (a / b) * b`, carrying the dividend's
sign. -/
def rustRem (a b : Int) : Int := a - rustDiv a b * b

/-- Rust `enum MonetaryError` (the `ParseInt` variant is never produced by
`from_str`, which wraps parse failures in `InvalidFormat`). -/
inductive MonetaryError where
  | InvalidFormat (msg : String)
  | Overflow
deriving DecidableEq, Repr

/-- Rust `impl Display for Monetary`: sign when negative, absolute integer
part via `{}`, a dot, and the fraction via `{:04}`. -/
def Monetary.fmt (m : Monetary) : List Char :=
  (if m < 0 then ['-'] else []) ++
    fmtI64 (rustDiv (absWrap64 m) SCALE) ++
    '.' :: fmtI64Pad 4 (rustRem (absWrap64 m) SCALE)

/-- Rust `impl FromStr for Monetary`, transcribed clause by clause: trim,
empty check, split on dots, more-than-one-dot check, integer-part parse,
fraction length check and right-zero-padded parse, then
`integer * SCALE + sign * fraction` with checked arithmetic, where
`sign` is negative exactly when the trimmed text starts with a minus. -/
def Monetary.from_str (s : List Char) : Except MonetaryError Monetary :=
  let value := trimChars s
  if value = [] then
    .error (MonetaryError.InvalidFormat "Value is an empty string")
  else
    let parts := splitOnDot value
    if parts.length > 2 then
      .error (MonetaryError.InvalidFormat "Value has more than one decimal point")
    else
      match parseI64 (parts.headD []) with
      | none => .error (MonetaryError.InvalidFormat "Value has an invalid integer part")
      | some integer =>
          let fracStep : Except MonetaryError Int :=
            if parts.length = 2 then
              let fp := parts.getD 1 []
              if fp.length > 4 then
                .error (MonetaryError.InvalidFormat "Value has too many decimal places")
              else
                match parseI64 (padRightZeros 4 fp) with
                | none =>
                    .error (MonetaryError.InvalidFormat "Value has an invalid fraction part")
                | some f => .ok f
            else .ok 0
          match fracStep with
          | .error e => .error e
          | .ok fraction =>
              let sign : Int := if value.headD ' ' = '-' then -1 else 1
              match Monetary.checked_mul integer SCALE with
              | none => .error MonetaryError.Overflow
              | some v =>
                  match Monetary.checked_add v (sign * fraction) with
                  | none => .error MonetaryError.Overflow
                  | some r => .ok r

end ATE

namespace ATE

/- ### Digit lemmas -/

theorem natDigitsAux_congr : ∀ f g n : Nat, n < f → n < g →
    natDigitsAux f n = natDigitsAux g n := by
  intro f
  induction f with
  | zero => intro g n hf; omega
  | succ f ih =>
      intro g n hf hg
      cases g with
      | zero => omega
      | succ g =>
          show (if n < 10 then [digitChar n]
                else natDigitsAux f (n / 10) ++ [digitChar (n % 10)]) =
              (if n < 10 then [digitChar n]
                else natDigitsAux g (n / 10) ++ [digitChar (n % 10)])
          by_cases h10 : n < 10
          · simp [h10]
          · have hlt : n / 10 < n := Nat.div_lt_self (by omega) (by omega)
            simp only [h10, if_false]
            rw [ih g (n / 10) (by omega) (by omega)]

/-- The defining unfolding of `natDigits`, independent of the fuel. -/
theorem natDigits_eq (n : Nat) :
    natDigits n = if n < 10 then [digitChar n]
      else natDigits (n / 10) ++ [digitChar (n % 10)] := by
  show natDigitsAux (n + 1) n = _
  by_cases h10 : n < 10
  · simp [natDigitsAux, h10]
  · have hlt : n / 10 < n := Nat.div_lt_self (by omega) (by omega)
    simp only [natDigitsAux, h10, if_false]
    rw [natDigitsAux_congr n (n / 10 + 1) (n / 10) (by omega) (by omega)]
    rfl

theorem charDigitVal_digitChar (n : Nat) (h : n < 10) :
    charDigitVal (digitChar n) = some n := by
  interval_cases n <;> rfl

theorem natDigits_ne_nil (n : Nat) : natDigits n ≠ [] := by
  rw [natDigits_eq]
  by_cases h10 : n < 10 <;> simp [h10]

theorem digitChar_bounds (k : Nat) (h : k < 10) :
    48 ≤ (digitChar k).toNat ∧ (digitChar k).toNat ≤ 57 := by
  interval_cases k <;> decide

theorem natDigits_all_digits (n : Nat) :
    ∀ c ∈ natDigits n, 48 ≤ c.toNat ∧ c.toNat ≤ 57 := by
  induction n using Nat.strong_induction_on with
  | _ n ih =>
      intro c hc
      rw [natDigits_eq] at hc
      by_cases h10 : n < 10
      · rw [if_pos h10] at hc
        rcases List.mem_singleton.mp hc with rfl
        exact digitChar_bounds n h10
      · rw [if_neg h10] at hc
        rcases List.mem_append.mp hc with hmem | hmem
        · exact ih (n / 10) (Nat.div_lt_self (by omega) (by omega)) c hmem
        · rcases List.mem_singleton.mp hmem with rfl
          exact digitChar_bounds (n % 10) (Nat.mod_lt n (by omega))

theorem digitsToNatAux_append (xs ys : List Char) (acc : Nat) :
    digitsToNatAux (xs ++ ys) acc =
      (digitsToNatAux xs acc).bind (fun a => digitsToNatAux ys a) := by
  induction xs generalizing acc with
  | nil => rfl
  | cons c rest ih =>
      show digitsToNatAux (c :: (rest ++ ys)) acc = _
      rcases hcv : charDigitVal c with _ | d
      · simp [digitsToNatAux, hcv]
      · simp only [digitsToNatAux, hcv]
        exact ih (acc * 10 + d)

theorem digitsToNatAux_natDigits (n : Nat) : ∀ acc : Nat,
    digitsToNatAux (natDigits n) acc =
      some (acc * 10 ^ (natDigits n).length + n) := by
  induction n using Nat.strong_induction_on with
  | _ n ih =>
      intro acc
      rw [natDigits_eq]
      by_cases h10 : n < 10
      · rw [if_pos h10]
        simp [digitsToNatAux, charDigitVal_digitChar n h10]
      · rw [if_neg h10]
        rw [digitsToNatAux_append]
        rw [ih (n / 10) (Nat.div_lt_self (by omega) (by omega)) acc]
        simp only [Option.some_bind]
        simp only [digitsToNatAux, charDigitVal_digitChar (n % 10) (Nat.mod_lt n (by omega)),
          List.length_append, List.length_singleton]
        congr 1
        calc (acc * 10 ^ (natDigits (n / 10)).length + n / 10) * 10 + n % 10
            = acc * (10 ^ (natDigits (n / 10)).length * 10) + (10 * (n / 10) + n % 10) := by
              ring
          _ = acc * 10 ^ ((natDigits (n / 10)).length + 1) + n := by
              rw [← pow_succ, Nat.div_add_mod]

theorem digitsToNat_natDigits (n : Nat) : digitsToNat (natDigits n) = some n := by
  rcases hnd : natDigits n with _ | ⟨c, rest⟩
  · exact absurd hnd (natDigits_ne_nil n)
  · show digitsToNatAux (c :: rest) 0 = some n
    rw [← hnd, digitsToNatAux_natDigits]
    simp

theorem natDigits_length_le (k : Nat) : ∀ n : Nat, n < 10 ^ (k + 1) →
    (natDigits n).length ≤ k + 1 := by
  induction k with
  | zero =>
      intro n hn
      rw [natDigits_eq, if_pos (by simpa using hn)]
      simp
  | succ k ih =>
      intro n hn
      rw [natDigits_eq]
      by_cases h10 : n < 10
      · simp [h10]
      · rw [if_neg h10]
        have : n / 10 < 10 ^ (k + 1) := by
          rw [Nat.div_lt_iff_lt_mul (by omega)]
          calc n < 10 ^ (k + 2) := hn
          _ = 10 ^ (k + 1) * 10 := by ring
        simpa using ih (n / 10) this

end ATE

namespace ATE

/- ### parseI64, splitOnDot, trim lemmas -/

theorem parseI64_natDigits (n : Nat) (h : (n : Int) ≤ I64.MAX) :
    parseI64 (natDigits n) = some (n : Int) := by
  rcases hnd : natDigits n with _ | ⟨c, rest⟩
  · exact absurd hnd (natDigits_ne_nil n)
  · have hcmem : c ∈ natDigits n := by
      rw [hnd]
      exact List.mem_cons_self c rest
    have hcd := natDigits_all_digits n c hcmem
    have hcm : c ≠ '-' := by
      intro he
      rw [he] at hcd
      revert hcd
      decide
    have hcp : c ≠ '+' := by
      intro he
      rw [he] at hcd
      revert hcd
      decide
    have hdn : digitsToNat (c :: rest) = some n := by
      rw [← hnd]
      exact digitsToNat_natDigits n
    show parseI64 (c :: rest) = some (n : Int)
    simp only [parseI64, if_neg hcm, if_neg hcp, hdn, if_pos h]

theorem parseI64_neg_natDigits (n : Nat) (h : (n : Int) ≤ 2 ^ 63) :
    parseI64 ('-' :: natDigits n) = some (-(n : Int)) := by
  show parseI64 ('-' :: natDigits n) = _
  simp [parseI64, digitsToNat_natDigits n, h]
  exact_mod_cast h

theorem digitsToNatAux_replicate_zero (k : Nat) (xs : List Char) :
    digitsToNatAux (List.replicate k (digitChar 0) ++ xs) 0 = digitsToNatAux xs 0 := by
  induction k with
  | zero => rfl
  | succ k ih =>
      show digitsToNatAux (digitChar 0 :: (List.replicate k (digitChar 0) ++ xs)) 0 = _
      simp only [digitsToNatAux, charDigitVal_digitChar 0 (by omega)]
      exact ih

theorem parseI64_padLeft_natDigits (n : Nat) (h : n < 10000) :
    parseI64 (padLeftZeros 4 (natDigits n)) = some (n : Int) := by
  rcases hk : 4 - (natDigits n).length with _ | k
  · have : padLeftZeros 4 (natDigits n) = natDigits n := by
      simp [padLeftZeros, hk]
    rw [this]
    exact parseI64_natDigits n (by show (n : Int) ≤ I64.MAX; simp [I64.MAX]; omega)
  · have hpl : padLeftZeros 4 (natDigits n) =
        digitChar 0 :: (List.replicate k (digitChar 0) ++ natDigits n) := by
      simp [padLeftZeros, hk, List.replicate_succ]
    rw [hpl]
    have h0m : digitChar 0 ≠ '-' := by decide
    have h0p : digitChar 0 ≠ '+' := by decide
    have hdn : digitsToNat (digitChar 0 :: (List.replicate k (digitChar 0) ++ natDigits n))
        = some n := by
      show digitsToNatAux (digitChar 0 :: (List.replicate k (digitChar 0) ++ natDigits n)) 0
          = some n
      have : digitChar 0 :: (List.replicate k (digitChar 0) ++ natDigits n)
          = List.replicate (k + 1) (digitChar 0) ++ natDigits n := by
        simp [List.replicate_succ]
      rw [this, digitsToNatAux_replicate_zero]
      have := digitsToNat_natDigits n
      rcases hnd : natDigits n with _ | ⟨c, rest⟩
      · exact absurd hnd (natDigits_ne_nil n)
      · rw [hnd] at this
        exact this
    simp only [parseI64, if_neg h0m, if_neg h0p, hdn,
      if_pos (by show (n : Int) ≤ I64.MAX; simp [I64.MAX]; omega)]

theorem splitOnDot_ne_nil (s : List Char) : splitOnDot s ≠ [] := by
  cases s with
  | nil => simp [splitOnDot]
  | cons c rest =>
      by_cases hc : c = '.'
      · simp [splitOnDot, hc]
      · simp only [splitOnDot, if_neg hc]
        rcases splitOnDot rest with _ | ⟨h, r⟩ <;> simp

theorem splitOnDot_no_dot (s : List Char) (h : ∀ c ∈ s, c ≠ '.') :
    splitOnDot s = [s] := by
  induction s with
  | nil => rfl
  | cons c rest ih =>
      have hc : c ≠ '.' := h c (List.mem_cons_self c rest)
      have hrest := ih (fun d hd => h d (List.mem_cons_of_mem c hd))
      simp only [splitOnDot, if_neg hc, hrest]

theorem splitOnDot_append (a b : List Char) (h : ∀ c ∈ a, c ≠ '.') :
    splitOnDot (a ++ '.' :: b) = a :: splitOnDot b := by
  induction a with
  | nil => simp [splitOnDot]
  | cons c rest ih =>
      have hc : c ≠ '.' := h c (List.mem_cons_self c rest)
      have hrest := ih (fun d hd => h d (List.mem_cons_of_mem c hd))
      show splitOnDot (c :: (rest ++ '.' :: b)) = _
      simp only [splitOnDot, if_neg hc, hrest]

theorem splitOnDot_length (s : List Char) :
    (splitOnDot s).length = s.count '.' + 1 := by
  induction s with
  | nil => rfl
  | cons c rest ih =>
      by_cases hc : c = '.'
      · subst hc
        simp [splitOnDot, ih, List.count_cons]
      · simp only [splitOnDot, if_neg hc]
        rcases hrest : splitOnDot rest with _ | ⟨h, r⟩
        · exact absurd hrest (splitOnDot_ne_nil rest)
        · rw [hrest] at ih
          simp only [List.length_cons] at ih ⊢
          rw [List.count_cons]
          simp [Ne.symm hc, hc, ih]

theorem dropWhile_eq_self_of (p : Char → Bool) (s : List Char)
    (h : ∀ c ∈ s, p c = false) : s.dropWhile p = s := by
  cases s with
  | nil => rfl
  | cons c rest =>
      have hc : p c = false := h c (List.mem_cons_self c rest)
      simp [List.dropWhile, hc]

theorem trimChars_eq_self (s : List Char) (h : ∀ c ∈ s, wsChar c = false) :
    trimChars s = s := by
  unfold trimChars
  rw [dropWhile_eq_self_of wsChar s h]
  rw [dropWhile_eq_self_of wsChar s.reverse (fun c hc => h c (List.mem_reverse.mp hc))]
  exact List.reverse_reverse s

end ATE

namespace ATE

/- ### Structure of the Display output -/

theorem digit_not_dot (c : Char) (h : 48 ≤ c.toNat ∧ c.toNat ≤ 57) : c ≠ '.' := by
  intro he
  rw [he] at h
  revert h
  decide

theorem digit_not_minus (c : Char) (h : 48 ≤ c.toNat ∧ c.toNat ≤ 57) : c ≠ '-' := by
  intro he
  rw [he] at h
  revert h
  decide

theorem digit_not_ws (c : Char) (h : 48 ≤ c.toNat ∧ c.toNat ≤ 57) : wsChar c = false := by
  have : ¬(c.toNat = 32 ∨ (9 ≤ c.toNat ∧ c.toNat ≤ 13)) := by omega
  simpa [wsChar] using this

theorem padLeft_all_digits (n : Nat) :
    ∀ c ∈ padLeftZeros 4 (natDigits n), 48 ≤ c.toNat ∧ c.toNat ≤ 57 := by
  intro c hc
  rcases List.mem_append.mp hc with hrep | hdig
  · rcases List.eq_of_mem_replicate hrep with rfl
    exact digitChar_bounds 0 (by omega)
  · exact natDigits_all_digits n c hdig

theorem padLeft_length (n : Nat) (h : n < 10000) :
    (padLeftZeros 4 (natDigits n)).length = 4 := by
  have hle : (natDigits n).length ≤ 4 := natDigits_length_le 3 n (by omega)
  simp [padLeftZeros]
  omega

theorem I64_MIN_val : I64.MIN = -9223372036854775808 := by decide

theorem I64_MAX_val : I64.MAX = 9223372036854775807 := by decide

theorem rem_cast_nonneg (x : Int) (h : 0 ≤ x) :
    x - ((x.toNat / 10000 : Nat) : Int) * 10000 = ((x.toNat % 10000 : Nat) : Int) := by
  omega

theorem fmt_nonneg (m : Monetary) (h0 : 0 ≤ m) :
    Monetary.fmt m =
      natDigits (m.toNat / 10000) ++
        '.' :: padLeftZeros 4 (natDigits (m.toNat % 10000)) := by
  have hnotneg : ¬ m < 0 := not_lt.mpr h0
  have hnotmin : m ≠ I64.MIN := by
    intro he
    rw [he, I64_MIN_val] at h0
    exact absurd h0 (by decide)
  have habs : absWrap64 m = m := by
    unfold absWrap64
    rw [if_neg hnotmin, if_neg hnotneg]
  have hq : rustDiv (absWrap64 m) SCALE = ((m.toNat / 10000 : Nat) : Int) := by
    rw [habs]
    unfold rustDiv
    rw [if_neg hnotneg]
    rfl
  have hr : rustRem (absWrap64 m) SCALE = ((m.toNat % 10000 : Nat) : Int) := by
    unfold rustRem
    rw [hq, habs]
    show m - ((m.toNat / 10000 : Nat) : Int) * (10000 : Int) = _
    exact rem_cast_nonneg m h0
  unfold Monetary.fmt
  rw [hq, hr, if_neg hnotneg]
  have hfi : fmtI64 ((m.toNat / 10000 : Nat) : Int) = natDigits (m.toNat / 10000) := by
    unfold fmtI64
    rw [if_neg (not_lt.mpr (Int.natCast_nonneg _)), Int.toNat_natCast]
  have hfp : fmtI64Pad 4 ((m.toNat % 10000 : Nat) : Int) =
      padLeftZeros 4 (natDigits (m.toNat % 10000)) := by
    unfold fmtI64Pad
    rw [if_neg (not_lt.mpr (Int.natCast_nonneg _)), Int.toNat_natCast]
  rw [hfi, hfp]
  rfl

theorem fmt_neg (m : Monetary) (hmin : I64.MIN < m) (h0 : m < 0) :
    Monetary.fmt m =
      '-' :: (natDigits ((-m).toNat / 10000) ++
        '.' :: padLeftZeros 4 (natDigits ((-m).toNat % 10000))) := by
  have hnotmin : m ≠ I64.MIN := ne_of_gt hmin
  have habs : absWrap64 m = -m := by
    unfold absWrap64
    rw [if_neg hnotmin, if_pos h0]
  have hnm : ¬ -m < 0 := not_lt.mpr (neg_nonneg.mpr h0.le)
  have hq : rustDiv (absWrap64 m) SCALE = (((-m).toNat / 10000 : Nat) : Int) := by
    rw [habs]
    unfold rustDiv
    rw [if_neg hnm]
    rfl
  have hr : rustRem (absWrap64 m) SCALE = (((-m).toNat % 10000 : Nat) : Int) := by
    unfold rustRem
    rw [hq, habs]
    show -m - (((-m).toNat / 10000 : Nat) : Int) * (10000 : Int) = _
    exact rem_cast_nonneg (-m) (neg_nonneg.mpr h0.le)
  unfold Monetary.fmt
  rw [hq, hr, if_pos h0]
  have hfi : fmtI64 (((-m).toNat / 10000 : Nat) : Int) =
      natDigits ((-m).toNat / 10000) := by
    unfold fmtI64
    rw [if_neg (not_lt.mpr (Int.natCast_nonneg _)), Int.toNat_natCast]
  have hfp : fmtI64Pad 4 (((-m).toNat % 10000 : Nat) : Int) =
      padLeftZeros 4 (natDigits ((-m).toNat % 10000)) := by
    unfold fmtI64Pad
    rw [if_neg (not_lt.mpr (Int.natCast_nonneg _)), Int.toNat_natCast]
  rw [hfi, hfp]
  rfl

end ATE

namespace ATE

theorem i64_range_of (x : Int) (h1 : -9223372036854775808 ≤ x)
    (h2 : x ≤ 9223372036854775807) : I64.MIN ≤ x ∧ x ≤ I64.MAX := by
  rw [I64_MIN_val, I64_MAX_val]
  exact ⟨h1, h2⟩

theorem div_mod_recompose (k : Nat) :
    ((k / 10000 : Nat) : Int) * 10000 + 1 * ((k % 10000 : Nat) : Int) = (k : Int) := by
  omega

theorem from_str_digits (n : Nat) (hn : n ≤ 9223372036854775807) :
    Monetary.from_str
        (natDigits (n / 10000) ++ '.' :: padLeftZeros 4 (natDigits (n % 10000)))
      = .ok ((n : Int)) := by
  obtain ⟨c, rest, hAe⟩ := List.exists_cons_of_ne_nil (natDigits_ne_nil (n / 10000))
  have hAdig : ∀ d ∈ natDigits (n / 10000), 48 ≤ d.toNat ∧ d.toNat ≤ 57 :=
    natDigits_all_digits _
  have hBdig : ∀ d ∈ padLeftZeros 4 (natDigits (n % 10000)),
      48 ≤ d.toNat ∧ d.toNat ≤ 57 := padLeft_all_digits _
  have htrim : trimChars (natDigits (n / 10000) ++
      '.' :: padLeftZeros 4 (natDigits (n % 10000))) =
      natDigits (n / 10000) ++ '.' :: padLeftZeros 4 (natDigits (n % 10000)) := by
    apply trimChars_eq_self
    intro d hd
    rcases List.mem_append.mp hd with hd | hd
    · exact digit_not_ws d (hAdig d hd)
    · rcases List.mem_cons.mp hd with rfl | hd
      · decide
      · exact digit_not_ws d (hBdig d hd)
  have hsplit : splitOnDot (natDigits (n / 10000) ++
      '.' :: padLeftZeros 4 (natDigits (n % 10000))) =
      [natDigits (n / 10000), padLeftZeros 4 (natDigits (n % 10000))] := by
    rw [splitOnDot_append _ _ (fun d hd => digit_not_dot d (hAdig d hd))]
    rw [splitOnDot_no_dot _ (fun d hd => digit_not_dot d (hBdig d hd))]
  have hBlen : (padLeftZeros 4 (natDigits (n % 10000))).length = 4 :=
    padLeft_length _ (Nat.mod_lt n (by omega))
  have hparseA : parseI64 (c :: rest) = some ((n / 10000 : Nat) : Int) := by
    rw [← hAe]
    apply parseI64_natDigits
    rw [I64_MAX_val]
    exact_mod_cast Nat.le_trans (Nat.div_le_self n 10000) hn
  have hparseB : parseI64 (padRightZeros 4 (padLeftZeros 4 (natDigits (n % 10000))))
      = some ((n % 10000 : Nat) : Int) := by
    have hpad : padRightZeros 4 (padLeftZeros 4 (natDigits (n % 10000)))
        = padLeftZeros 4 (natDigits (n % 10000)) := by
      simp [padRightZeros, hBlen]
    rw [hpad]
    exact parseI64_padLeft_natDigits _ (Nat.mod_lt n (by omega))
  have hcd : c ≠ '-' := by
    apply digit_not_minus
    apply hAdig
    rw [hAe]
    exact List.mem_cons_self c rest
  have hSC : SCALE = (10000 : Int) := rfl
  rw [hAe] at htrim hsplit ⊢
  simp only [List.cons_append] at htrim hsplit ⊢
  unfold Monetary.from_str
  simp only [htrim, hsplit]
  rw [if_neg (by simp)]
  rw [if_neg (by simp)]
  have hh1 : ([c :: rest, padLeftZeros 4 (natDigits (n % 10000))]).headD ([] : List Char)
      = c :: rest := rfl
  rw [hh1, hparseA]
  dsimp only
  rw [if_pos (by simp)]
  have hh2 : ([c :: rest, padLeftZeros 4 (natDigits (n % 10000))]).getD 1 ([] : List Char)
      = padLeftZeros 4 (natDigits (n % 10000)) := rfl
  rw [hh2, hBlen]
  rw [if_neg (by norm_num)]
  rw [hparseB]
  dsimp only
  have hh3 : (c :: (rest ++ '.' :: padLeftZeros 4 (natDigits (n % 10000)))).headD ' '
      = c := rfl
  rw [hh3]
  rw [if_neg hcd]
  have hmul : Monetary.checked_mul ((n / 10000 : Nat) : Int) SCALE
      = some (((n / 10000 : Nat) : Int) * 10000) := by
    unfold Monetary.checked_mul
    rw [hSC, if_pos (i64_range_of _ (by omega) (by omega))]
  rw [hmul]
  dsimp only
  have hadd : Monetary.checked_add (((n / 10000 : Nat) : Int) * 10000)
      (1 * ((n % 10000 : Nat) : Int)) = some ((n : Int)) := by
    unfold Monetary.checked_add
    rw [if_pos (i64_range_of _ (by omega) (by omega))]
    congr 1
    exact div_mod_recompose n
  rw [hadd]

end ATE

namespace ATE

theorem div_mod_recompose_neg (k : Nat) :
    -((k / 10000 : Nat) : Int) * 10000 + -1 * ((k % 10000 : Nat) : Int)
      = -(k : Int) := by
  omega

theorem from_str_digits_neg (n : Nat) (hn : n ≤ 9223372036854775808) :
    Monetary.from_str
        ('-' :: (natDigits (n / 10000) ++
          '.' :: padLeftZeros 4 (natDigits (n % 10000))))
      = .ok (-(n : Int)) := by
  have hAdig : ∀ d ∈ natDigits (n / 10000), 48 ≤ d.toNat ∧ d.toNat ≤ 57 :=
    natDigits_all_digits _
  have hBdig : ∀ d ∈ padLeftZeros 4 (natDigits (n % 10000)),
      48 ≤ d.toNat ∧ d.toNat ≤ 57 := padLeft_all_digits _
  have htrim : trimChars ('-' :: (natDigits (n / 10000) ++
      '.' :: padLeftZeros 4 (natDigits (n % 10000)))) =
      '-' :: (natDigits (n / 10000) ++
        '.' :: padLeftZeros 4 (natDigits (n % 10000))) := by
    apply trimChars_eq_self
    intro d hd
    rcases List.mem_cons.mp hd with rfl | hd
    · decide
    · rcases List.mem_append.mp hd with hd | hd
      · exact digit_not_ws d (hAdig d hd)
      · rcases List.mem_cons.mp hd with rfl | hd
        · decide
        · exact digit_not_ws d (hBdig d hd)
  have hsplit : splitOnDot ('-' :: (natDigits (n / 10000) ++
      '.' :: padLeftZeros 4 (natDigits (n % 10000)))) =
      ['-' :: natDigits (n / 10000), padLeftZeros 4 (natDigits (n % 10000))] := by
    have h1 : ('-' :: natDigits (n / 10000)) ++
        '.' :: padLeftZeros 4 (natDigits (n % 10000)) =
        '-' :: (natDigits (n / 10000) ++
          '.' :: padLeftZeros 4 (natDigits (n % 10000))) := by
      simp
    rw [← h1]
    rw [splitOnDot_append _ _ ?hnd]
    · rw [splitOnDot_no_dot _ (fun d hd => digit_not_dot d (hBdig d hd))]
    · intro d hd
      rcases List.mem_cons.mp hd with rfl | hd
      · decide
      · exact digit_not_dot d (hAdig d hd)
  have hBlen : (padLeftZeros 4 (natDigits (n % 10000))).length = 4 :=
    padLeft_length _ (Nat.mod_lt n (by omega))
  have hparseA : parseI64 ('-' :: natDigits (n / 10000))
      = some (-((n / 10000 : Nat) : Int)) := by
    apply parseI64_neg_natDigits
    have : n / 10000 ≤ 9223372036854775808 := Nat.le_trans (Nat.div_le_self n 10000) hn
    exact_mod_cast this
  have hparseB : parseI64 (padRightZeros 4 (padLeftZeros 4 (natDigits (n % 10000))))
      = some ((n % 10000 : Nat) : Int) := by
    have hpad : padRightZeros 4 (padLeftZeros 4 (natDigits (n % 10000)))
        = padLeftZeros 4 (natDigits (n % 10000)) := by
      simp [padRightZeros, hBlen]
    rw [hpad]
    exact parseI64_padLeft_natDigits _ (Nat.mod_lt n (by omega))
  have hSC : SCALE = (10000 : Int) := rfl
  unfold Monetary.from_str
  simp only [htrim, hsplit]
  rw [if_neg (by simp)]
  rw [if_neg (by simp)]
  have hh1 : (['-' :: natDigits (n / 10000),
      padLeftZeros 4 (natDigits (n % 10000))]).headD ([] : List Char)
      = '-' :: natDigits (n / 10000) := rfl
  rw [hh1, hparseA]
  dsimp only
  rw [if_pos (by simp)]
  have hh2 : (['-' :: natDigits (n / 10000),
      padLeftZeros 4 (natDigits (n % 10000))]).getD 1 ([] : List Char)
      = padLeftZeros 4 (natDigits (n % 10000)) := rfl
  rw [hh2, hBlen]
  rw [if_neg (by norm_num)]
  rw [hparseB]
  dsimp only
  have hh3 : ('-' :: (natDigits (n / 10000) ++
      '.' :: padLeftZeros 4 (natDigits (n % 10000)))).headD ' ' = '-' := rfl
  rw [hh3]
  rw [if_pos rfl]
  have hmul : Monetary.checked_mul (-((n / 10000 : Nat) : Int)) SCALE
      = some (-((n / 10000 : Nat) : Int) * 10000) := by
    unfold Monetary.checked_mul
    rw [hSC, if_pos (i64_range_of _ (by omega) (by omega))]
  rw [hmul]
  dsimp only
  have hadd : Monetary.checked_add (-((n / 10000 : Nat) : Int) * 10000)
      (-1 * ((n % 10000 : Nat) : Int)) = some (-(n : Int)) := by
    unfold Monetary.checked_add
    rw [if_pos (i64_range_of _ (by omega) (by omega))]
    congr 1
    exact div_mod_recompose_neg n
  rw [hadd]

end ATE

namespace ATE

theorem toNat_le_of_le (x : Int) (b : Nat) (h : x ≤ (b : Int)) : x.toNat ≤ b := by
  omega

theorem neg_bound_of_min_lt (x : Int) (h : -9223372036854775808 < x) :
    -x ≤ (9223372036854775808 : Int) := by
  omega

/-- Counterexample to C7 as stated: at the minimum i64 count the
round-trip fails. Release-mode `abs` wraps at `i64::MIN`, so Display
emits the malformed text `--922337203685477.-5808`, whose integer part
does not parse back. -/
theorem C7_counterexample :
    Monetary.from_str (Monetary.fmt I64.MIN)
        = .error (MonetaryError.InvalidFormat "Value has an invalid integer part") ∧
    Monetary.from_str (Monetary.fmt I64.MIN) ≠ .ok I64.MIN := by
  have h : Monetary.from_str (Monetary.fmt I64.MIN)
      = .error (MonetaryError.InvalidFormat "Value has an invalid integer part") := by
    rfl
  refine ⟨h, ?_⟩
  intro hok
  rw [h] at hok
  exact Except.noConfusion hok

/-- C7 as amended: for every Monetary whose underlying i64 count is not
`i64::MIN`, parsing the Display output returns exactly the original
value. -/
theorem C7_parse_format_roundtrip (m : Monetary) (h1 : I64.MIN < m)
    (h2 : m ≤ I64.MAX) :
    Monetary.from_str (Monetary.fmt m) = .ok m := by
  rcases lt_or_le m 0 with hneg | hpos
  · rw [fmt_neg m h1 hneg]
    have h1' : (-9223372036854775808 : Int) < m := by
      rw [I64_MIN_val] at h1
      exact h1
    have hn : (-m).toNat ≤ 9223372036854775808 :=
      toNat_le_of_le (-m) _ (by exact_mod_cast neg_bound_of_min_lt m h1')
    rw [from_str_digits_neg (-m).toNat hn]
    have hmn : (((-m).toNat : Nat) : Int) = -m :=
      Int.toNat_of_nonneg (neg_nonneg.mpr hneg.le)
    rw [hmn, neg_neg]
  · rw [fmt_nonneg m hpos]
    have h2' : m ≤ ((9223372036854775807 : Nat) : Int) := by
      rw [I64_MAX_val] at h2
      exact_mod_cast h2
    have hn : m.toNat ≤ 9223372036854775807 := toNat_le_of_le m _ h2'
    rw [from_str_digits m.toNat hn]
    rw [Int.toNat_of_nonneg hpos]

/-- Witness for C7's amended claim at the concrete value -1.2345. -/
theorem C7_parse_format_roundtrip_witness :
    Monetary.from_str (Monetary.fmt (-12345)) = .ok (-12345) :=
  C7_parse_format_roundtrip (-12345) (by decide) (by decide)

end ATE

namespace ATE

/- ### Claim C5 -/

/-- Whether a `Result`-like value is an error. -/
def exceptIsError {ε α : Type} : Except ε α → Bool
  | .error _ => true
  | .ok _ => false

/-- The shape accepted by Rust `str::parse::<i64>` apart from range: an
optional leading sign followed by one or more ASCII digits. -/
def isSignedDigitStr (s : List Char) : Bool :=
  match s with
  | [] => false
  | c :: rest =>
      if c = '-' ∨ c = '+' then
        !rest.isEmpty && rest.all (fun d => (charDigitVal d).isSome)
      else (c :: rest).all (fun d => (charDigitVal d).isSome)

theorem digitsToNatAux_none_of_bad (xs : List Char) (acc : Nat)
    (h : xs.all (fun d => (charDigitVal d).isSome) = false) :
    digitsToNatAux xs acc = none := by
  induction xs generalizing acc with
  | nil => simp at h
  | cons c rest ih =>
      rcases hcv : charDigitVal c with _ | d
      · simp [digitsToNatAux, hcv]
      · simp only [List.all_cons, hcv, Option.isSome_some, Bool.true_and] at h
        simp only [digitsToNatAux, hcv]
        exact ih _ h

theorem parseI64_none_of_bad (x : List Char) (h : isSignedDigitStr x = false) :
    parseI64 x = none := by
  cases x with
  | nil => rfl
  | cons c rest =>
      by_cases hm : c = '-'
      · subst hm
        have hsig : (!rest.isEmpty && rest.all fun d => (charDigitVal d).isSome) = false := by
          simpa [isSignedDigitStr] using h
        show parseI64 ('-' :: rest) = none
        cases rest with
        | nil => rfl
        | cons d tl =>
            simp only [List.isEmpty_cons, Bool.not_false, Bool.true_and] at hsig
            show (match digitsToNat (d :: tl) with
              | some n => if (n : Int) ≤ 2 ^ 63 then some (-(n : Int)) else none
              | none => none) = none
            rw [show digitsToNat (d :: tl) = digitsToNatAux (d :: tl) 0 from rfl]
            rw [digitsToNatAux_none_of_bad _ _ hsig]
      · by_cases hp : c = '+'
        · subst hp
          have hsig : (!rest.isEmpty && rest.all fun d => (charDigitVal d).isSome) = false := by
            simpa [isSignedDigitStr] using h
          show parseI64 ('+' :: rest) = none
          cases rest with
          | nil => rfl
          | cons d tl =>
              simp only [List.isEmpty_cons, Bool.not_false, Bool.true_and] at hsig
              show (match digitsToNat (d :: tl) with
                | some n => if (n : Int) ≤ I64.MAX then some ((n : Int)) else none
                | none => none) = none
              rw [show digitsToNat (d :: tl) = digitsToNatAux (d :: tl) 0 from rfl]
              rw [digitsToNatAux_none_of_bad _ _ hsig]
        · have hsig : ((c :: rest).all fun d => (charDigitVal d).isSome) = false := by
            simpa [isSignedDigitStr, hm, hp] using h
          simp only [parseI64, if_neg hm, if_neg hp]
          rw [show digitsToNat (c :: rest) = digitsToNatAux (c :: rest) 0 from rfl]
          rw [digitsToNatAux_none_of_bad _ _ hsig]

theorem from_str_error_of_trim_empty (s : List Char) (h : trimChars s = []) :
    exceptIsError (Monetary.from_str s) = true := by
  simp only [Monetary.from_str, h]
  rfl

theorem from_str_error_of_many_parts (s : List Char)
    (h : 2 < (splitOnDot (trimChars s)).length) :
    exceptIsError (Monetary.from_str s) = true := by
  simp only [Monetary.from_str]
  by_cases h0 : trimChars s = []
  · simp [h0, exceptIsError]
  · rw [if_neg h0, if_pos h]
    rfl

theorem from_str_error_of_int_part (s : List Char)
    (h : parseI64 ((splitOnDot (trimChars s)).headD []) = none) :
    exceptIsError (Monetary.from_str s) = true := by
  simp only [Monetary.from_str]
  by_cases h0 : trimChars s = []
  · simp [h0, exceptIsError]
  · rw [if_neg h0]
    by_cases h2 : (splitOnDot (trimChars s)).length > 2
    · rw [if_pos h2]
      rfl
    · rw [if_neg h2, h]
      rfl

theorem from_str_error_of_long_fraction (s : List Char)
    (h2 : (splitOnDot (trimChars s)).length = 2)
    (h4 : 4 < ((splitOnDot (trimChars s)).getD 1 []).length) :
    exceptIsError (Monetary.from_str s) = true := by
  simp only [Monetary.from_str]
  by_cases h0 : trimChars s = []
  · simp [h0, exceptIsError]
  · rw [if_neg h0]
    rw [if_neg (by omega)]
    rcases hp : parseI64 ((splitOnDot (trimChars s)).headD []) with _ | integer
    · rfl
    · dsimp only
      rw [if_pos h2, if_pos h4]
      rfl

theorem from_str_error_of_bad_fraction (s : List Char)
    (h2 : (splitOnDot (trimChars s)).length = 2)
    (h4 : ¬ 4 < ((splitOnDot (trimChars s)).getD 1 []).length)
    (hb : parseI64 (padRightZeros 4 ((splitOnDot (trimChars s)).getD 1 [])) = none) :
    exceptIsError (Monetary.from_str s) = true := by
  simp only [Monetary.from_str]
  by_cases h0 : trimChars s = []
  · simp [h0, exceptIsError]
  · rw [if_neg h0]
    rw [if_neg (by omega)]
    rcases hp : parseI64 ((splitOnDot (trimChars s)).headD []) with _ | integer
    · rfl
    · dsimp only
      rw [if_pos h2, if_neg h4, hb]
      rfl

end ATE

namespace ATE

/-- Counterexample to C5 as stated: `"1.-5"` has the non-digit `'-'` in a
fractional digit position, yet parsing accepts it: the fraction `"-5"` is
right-padded to `"-500"`, which `parse::<i64>` reads as -500, giving
1·10000 + (-500) = 9500, i.e. 0.9500. -/
theorem C5_counterexample :
    Monetary.from_str ['1', '.', '-', '5'] = .ok 9500 ∧
    exceptIsError (Monetary.from_str ['1', '.', '-', '5']) = false := by
  exact ⟨rfl, rfl⟩

/-- C5 as amended: parsing rejects with an error every input that after
trimming is empty, contains more than one dot, has a fractional part
longer than 4 characters, begins with a dot (the `.d…` form), or whose
integer part — or right-zero-padded fractional part — is not an
optionally-signed digit string. (The carve-out forced by the
counterexample: a fractional part that reads as a signed number after
padding, such as `-5`, is accepted.) -/
theorem C5_parse_rejections (s : List Char)
    (h : trimChars s = []
       ∨ 2 ≤ (trimChars s).count '.'
       ∨ (∃ a b, trimChars s = a ++ '.' :: b ∧ '.' ∉ b ∧ 4 < b.length)
       ∨ (trimChars s).headD ' ' = '.'
       ∨ ('.' ∉ trimChars s ∧ isSignedDigitStr (trimChars s) = false)
       ∨ (∃ a b, trimChars s = a ++ '.' :: b ∧ '.' ∉ a ∧ '.' ∉ b ∧
            (isSignedDigitStr a = false ∨
              (b.length ≤ 4 ∧ isSignedDigitStr (padRightZeros 4 b) = false)))) :
    exceptIsError (Monetary.from_str s) = true := by
  rcases h with h | h | h | h | h | h
  · exact from_str_error_of_trim_empty s h
  · apply from_str_error_of_many_parts
    rw [splitOnDot_length]
    omega
  · obtain ⟨a, b, heq, hnb, hlen⟩ := h
    by_cases hda : '.' ∈ a
    · apply from_str_error_of_many_parts
      rw [splitOnDot_length, heq]
      have hca : 0 < a.count '.' := List.count_pos_iff.mpr hda
      simp only [List.count_append, List.count_cons_self]
      omega
    · have hna : ∀ c ∈ a, c ≠ '.' := fun c hc he => hda (he ▸ hc)
      have hsp : splitOnDot (trimChars s) = [a, b] := by
        rw [heq, splitOnDot_append a b hna,
          splitOnDot_no_dot b (fun c hc he => hnb (he ▸ hc))]
      apply from_str_error_of_long_fraction s (by rw [hsp]; rfl)
      rw [hsp]
      exact hlen
  · rcases ht : trimChars s with _ | ⟨c0, t⟩
    · rw [ht] at h
      exact absurd h (by decide)
    · rw [ht] at h
      have hc0 : c0 = '.' := by simpa using h
      subst hc0
      apply from_str_error_of_int_part
      rw [ht]
      show parseI64 ((splitOnDot ('.' :: t)).headD []) = none
      simp [splitOnDot, parseI64]
  · obtain ⟨hnd, hbad⟩ := h
    apply from_str_error_of_int_part
    rw [splitOnDot_no_dot (trimChars s) (fun c hc he => hnd (he ▸ hc))]
    exact parseI64_none_of_bad _ hbad
  · obtain ⟨a, b, heq, hda, hdb, hor⟩ := h
    have hsp : splitOnDot (trimChars s) = [a, b] := by
      rw [heq, splitOnDot_append a b (fun c hc he => hda (he ▸ hc)),
        splitOnDot_no_dot b (fun c hc he => hdb (he ▸ hc))]
    rcases hor with hba | ⟨hble, hbp⟩
    · apply from_str_error_of_int_part
      rw [hsp]
      exact parseI64_none_of_bad a hba
    · apply from_str_error_of_bad_fraction s (by rw [hsp]; rfl)
      · rw [hsp]
        show ¬ 4 < b.length
        omega
      · rw [hsp]
        exact parseI64_none_of_bad _ hbp

/-- Witness for C5's amended claim: `"1.2.3"` has two dots and is
rejected. -/
theorem C5_parse_rejections_witness :
    exceptIsError (Monetary.from_str ['1', '.', '2', '.', '3']) = true :=
  C5_parse_rejections ['1', '.', '2', '.', '3'] (Or.inr (Or.inl (by decide)))

end ATE
